import Mathlib

/-!
Verification development for the kernel/distance computation core of the
alibi-detect repository (GaussianRBF, RationalQuadratic and Periodic kernels,
the bandwidth-inference heuristic, the kernel composition algebra, the deep
kernel combinator and batched kernel-matrix assembly).

The repository snapshot contains the test-suite and package declarations of
the core but not the bodies of the kernel and distance modules themselves
(alibi_detect/utils/{pytorch,tensorflow}/kernels.py and distance.py), so the
engine is modelled here from the specification, over exact arithmetic:
input batches carry rational entries, kernel values live in the real numbers.
-/

open scoped BigOperators

open Matrix

/-- A feature vector of dimension `d`, with exact rational entries. -/
abbrev Vec (d : ℕ) := Fin d → ℚ

/-- A batch of `n` feature vectors of dimension `d`, as an `n × d` matrix. -/
abbrev Batch (n d : ℕ) := Matrix (Fin n) (Fin d) ℚ

/-- Modelled from the spec (DistanceEngine, §4.1): the squared Euclidean
distance between two vectors, computed via the expansion
`‖x‖² + ‖y‖² - 2 x·y` and clamped to be non-negative. -/
def sqdistVec {d : ℕ} (x y : Vec d) : ℚ :=
  max 0 (∑ t, x t ^ 2 + ∑ t, y t ^ 2 - 2 * ∑ t, x t * y t)

/-- Modelled from the spec (DistanceEngine, §4.1): the squared pairwise
distance matrix `S` with `S i j = ‖X i - Y j‖²`, each entry computed via the
clamped expansion. -/
def squared_pairwise_distance {n m d : ℕ} (x : Batch n d) (y : Batch m d) :
    Matrix (Fin n) (Fin m) ℚ :=
  fun i j => sqdistVec (x i) (y j)

/-- All entries of a distance matrix, flattened row-major into a list. -/
def matrixEntries {n m : ℕ} (s : Matrix (Fin n) (Fin m) ℚ) : List ℚ :=
  (List.finRange n).flatMap (fun i => (List.finRange m).map (fun j => s i j))

/-- The nonzero entries of a distance matrix (this in particular drops the
zero diagonal of a self-distance matrix, as §4.2 of the spec requires). -/
def nonzeroEntries {n m : ℕ} (s : Matrix (Fin n) (Fin m) ℚ) : List ℚ :=
  (matrixEntries s).filter (fun a => a ≠ 0)

/-- The median of a list of rationals: sort, then average the two middle
elements (they coincide for odd length). The empty list is sent to `0`. -/
def medianQ (l : List ℚ) : ℚ :=
  let s := l.insertionSort (· ≤ ·)
  (s.getD ((s.length - 1) / 2) 0 + s.getD (s.length / 2) 0) / 2

/-- The signature every bandwidth heuristic satisfies (§4.2 of the spec):
`(X, Y, distance_matrix) → scalar`, the scalar being the log of the derived
bandwidth. -/
abbrev Heuristic (d : ℕ) :=
  ∀ {n m : ℕ}, Batch n d → Batch m d → Matrix (Fin n) (Fin m) ℚ → ℝ

/-- Modelled from the spec (BandwidthHeuristic, §4.2): the median heuristic.
Given the distance matrix `S`, `sigma = sqrt(0.5 * median(nonzero entries))`;
the heuristic returns `log sigma`, the consumer exponentiates before use. -/
noncomputable def log_sigma_median {d n m : ℕ} (_x : Batch n d) (_y : Batch m d)
    (dist : Matrix (Fin n) (Fin m) ℚ) : ℝ :=
  Real.log (Real.sqrt ((medianQ (nonzeroEntries dist) : ℝ) / 2))

/-- Modelled from the spec (§4.3): the Gaussian RBF formula
`exp (-S / (2 σ²))` evaluated at one distance entry for each configured
bandwidth, the per-bandwidth results averaged (multi-bandwidth mixing). -/
noncomputable def gaussianFormula (sigmas : List ℝ) (s : ℚ) : ℝ :=
  ((sigmas.map (fun σ => Real.exp (-(s : ℝ) / (2 * σ ^ 2)))).sum) / sigmas.length

/-- Modelled from the spec (§3, §4.3): the GaussianRBF kernel state. `sigma`
is the ordered list of current bandwidth values, `trainable` marks externally
learned parameters, `init_required` records that no explicit value was given
at construction, and `init_sigma_fn` is the configured bandwidth heuristic. -/
structure GaussianRBF (d : ℕ) where
  sigma : List ℝ
  trainable : Bool
  init_required : Bool
  init_sigma_fn : Heuristic d

/-- Modelled from the spec (§3, §8 scenarios): GaussianRBF construction.
When no explicit `sigma` is supplied the kernel still receives a usable
default initial value (bandwidth 1, the exponential of a zero log-sigma) so
that a trainable kernel is immediately evaluable; `init_required` remembers
that the value was defaulted. The heuristic defaults to the median
heuristic. -/
noncomputable def GaussianRBF.make (d : ℕ) (sigma : Option (List ℝ))
    (trainable : Bool) (fn : Option (Heuristic d)) : GaussianRBF d :=
  { sigma := sigma.getD [1]
    trainable := trainable
    init_required := sigma.isNone
    init_sigma_fn := fn.getD (fun x y s => log_sigma_median x y s) }

/-- Modelled from the spec (§4.3 evaluation contract): calling a GaussianRBF
on a pair of batches. With `infer = true` the call first validates the
trainable/no-explicit-value invariant (§3), then runs the configured
heuristic on `(x, y, S)` with `S` computed once by the distance engine,
stores the exponentiated result as the kernel's current bandwidth and
evaluates; with `infer = false` it evaluates with the current parameters. -/
noncomputable def GaussianRBF.call {d n m : ℕ} (k : GaussianRBF d) (x : Batch n d)
    (y : Batch m d) (infer : Bool) :
    Except String (Matrix (Fin n) (Fin m) ℝ × GaussianRBF d) :=
  if infer then
    if k.trainable && k.init_required then
      .error "cannot both learn and re-infer a parameter"
    else
      let S := squared_pairwise_distance x y
      let σnew : List ℝ := [Real.exp (k.init_sigma_fn x y S)]
      .ok (fun i j => gaussianFormula σnew (S i j),
           { k with sigma := σnew, init_required := false })
  else
    .ok (fun i j => gaussianFormula k.sigma (squared_pairwise_distance x y i j), k)

/-- Valid parameter state for a GaussianRBF: at least one bandwidth, all
bandwidths positive. -/
def GaussianRBF.valid {d : ℕ} (k : GaussianRBF d) : Prop :=
  k.sigma ≠ [] ∧ ∀ σ ∈ k.sigma, 0 < σ

/-- Modelled from the spec (§4.3): the RationalQuadratic formula
`(1 + S/(2 α σ²))^(-α)` (real exponentiation), evaluated per configured
`(σ, α)` pair and averaged. -/
noncomputable def rqFormula (sigmas alphas : List ℝ) (s : ℚ) : ℝ :=
  (((sigmas.zip alphas).map
      (fun p => (1 + (s : ℝ) / (2 * p.2 * p.1 ^ 2)) ^ (-p.2))).sum) /
    (sigmas.zip alphas).length

/-- Modelled from the spec (§3, §4.3): the RationalQuadratic kernel state,
with bandwidths `sigma`, shape parameters `alpha`, and the same trainable /
defaulted-value bookkeeping as GaussianRBF. -/
structure RationalQuadratic (d : ℕ) where
  sigma : List ℝ
  alpha : List ℝ
  trainable : Bool
  init_required : Bool
  init_sigma_fn : Heuristic d

/-- Modelled from the spec: RationalQuadratic construction; unset parameters
default to the usable value 1, `init_required` records a defaulted `sigma`,
the heuristic defaults to the median heuristic. -/
noncomputable def RationalQuadratic.make (d : ℕ) (sigma alpha : Option (List ℝ))
    (trainable : Bool) (fn : Option (Heuristic d)) : RationalQuadratic d :=
  { sigma := sigma.getD [1]
    alpha := alpha.getD [1]
    trainable := trainable
    init_required := sigma.isNone
    init_sigma_fn := fn.getD (fun x y s => log_sigma_median x y s) }

/-- Modelled from the spec (§4.3 evaluation contract): calling a
RationalQuadratic kernel; the inference pass validates the §3 invariant, then
derives and stores a fresh bandwidth from the configured heuristic. -/
noncomputable def RationalQuadratic.call {d n m : ℕ} (k : RationalQuadratic d)
    (x : Batch n d) (y : Batch m d) (infer : Bool) :
    Except String (Matrix (Fin n) (Fin m) ℝ × RationalQuadratic d) :=
  if infer then
    if k.trainable && k.init_required then
      .error "cannot both learn and re-infer a parameter"
    else
      let S := squared_pairwise_distance x y
      let σnew : List ℝ := [Real.exp (k.init_sigma_fn x y S)]
      .ok (fun i j => rqFormula σnew k.alpha (S i j),
           { k with sigma := σnew, init_required := false })
  else
    .ok (fun i j => rqFormula k.sigma k.alpha (squared_pairwise_distance x y i j), k)

/-- Valid parameter state for a RationalQuadratic: at least one `(σ, α)`
pair, matching lengths, all values positive. -/
def RationalQuadratic.valid {d : ℕ} (k : RationalQuadratic d) : Prop :=
  k.sigma ≠ [] ∧ k.alpha.length = k.sigma.length ∧
    (∀ σ ∈ k.sigma, 0 < σ) ∧ ∀ α ∈ k.alpha, 0 < α

/-- Modelled from the spec (§4.3): the Periodic formula
`exp (-2 sin²(π √S / τ) / σ²)`, evaluated per configured `(σ, τ)` pair and
averaged. -/
noncomputable def periodicFormula (sigmas taus : List ℝ) (s : ℚ) : ℝ :=
  (((sigmas.zip taus).map
      (fun p => Real.exp (-2 * Real.sin (Real.pi * Real.sqrt (s : ℝ) / p.2) ^ 2 / p.1 ^ 2))).sum) /
    (sigmas.zip taus).length

/-- Modelled from the spec (§3, §4.3): the Periodic kernel state; `sigma` and
`tau` may independently be fixed or defaulted, so each carries its own
defaulted-value flag, and each has its own heuristic. -/
structure Periodic (d : ℕ) where
  sigma : List ℝ
  tau : List ℝ
  trainable : Bool
  sigma_required : Bool
  tau_required : Bool
  init_sigma_fn : Heuristic d
  init_tau_fn : Heuristic d

/-- Modelled from the spec: Periodic construction; unset parameters default
to the usable value 1, the flags record which of them were defaulted, both
heuristics default to the median heuristic. -/
noncomputable def Periodic.make (d : ℕ) (sigma tau : Option (List ℝ))
    (trainable : Bool) (fn : Option (Heuristic d)) : Periodic d :=
  { sigma := sigma.getD [1]
    tau := tau.getD [1]
    trainable := trainable
    sigma_required := sigma.isNone
    tau_required := tau.isNone
    init_sigma_fn := fn.getD (fun x y s => log_sigma_median x y s)
    init_tau_fn := fun x y s => log_sigma_median x y s }

/-- Modelled from the spec (§4.3 evaluation contract): calling a Periodic
kernel; the inference pass validates the §3 invariant (either parameter
missing an explicit value counts), then re-derives `sigma`, and `tau` when it
was not explicitly fixed, from their heuristics. -/
noncomputable def Periodic.call {d n m : ℕ} (k : Periodic d) (x : Batch n d)
    (y : Batch m d) (infer : Bool) :
    Except String (Matrix (Fin n) (Fin m) ℝ × Periodic d) :=
  if infer then
    if k.trainable && (k.sigma_required || k.tau_required) then
      .error "cannot both learn and re-infer a parameter"
    else
      let S := squared_pairwise_distance x y
      let σnew : List ℝ := [Real.exp (k.init_sigma_fn x y S)]
      let τnew : List ℝ :=
        if k.tau_required then [Real.exp (k.init_tau_fn x y S)] else k.tau
      .ok (fun i j => periodicFormula σnew τnew (S i j),
           { k with sigma := σnew, tau := τnew,
                    sigma_required := false, tau_required := false })
  else
    .ok (fun i j => periodicFormula k.sigma k.tau (squared_pairwise_distance x y i j), k)

/-- Valid parameter state for a Periodic kernel: at least one `(σ, τ)` pair,
matching lengths, all values positive. -/
def Periodic.valid {d : ℕ} (k : Periodic d) : Prop :=
  k.sigma ≠ [] ∧ k.tau.length = k.sigma.length ∧
    (∀ σ ∈ k.sigma, 0 < σ) ∧ ∀ τ ∈ k.tau, 0 < τ

/-- Modelled from the spec (§3, §4.4): the kernel algebra. A kernel is a base
kernel leaf (GaussianRBF, RationalQuadratic or Periodic) or a composite tree
node: point-wise sum or product of two kernels, or a point-wise scaling of a
kernel by a fixed scalar constant. -/
inductive Kernel (d : ℕ) where
  | gaussian : GaussianRBF d → Kernel d
  | rq : RationalQuadratic d → Kernel d
  | periodic : Periodic d → Kernel d
  | sum : Kernel d → Kernel d → Kernel d
  | prod : Kernel d → Kernel d → Kernel d
  | scale : Kernel d → ℝ → Kernel d

/-- Modelled from the spec (§4.4, §9): named combinator building the
point-wise sum of two kernels, a new composite node holding the operands. -/
def sum_kernels {d : ℕ} (k1 k2 : Kernel d) : Kernel d := Kernel.sum k1 k2

/-- Modelled from the spec (§4.4, §9): named combinator building the
point-wise product of two kernels. -/
def product_kernels {d : ℕ} (k1 k2 : Kernel d) : Kernel d := Kernel.prod k1 k2

/-- Modelled from the spec (§4.4, §9): point-wise multiplication of a
kernel's output by a fixed scalar constant. -/
def scale_kernel {d : ℕ} (k : Kernel d) (c : ℝ) : Kernel d := Kernel.scale k c

/-- Modelled from the spec (§4.4, §9): point-wise division of a kernel's
output by a fixed scalar constant, as scaling by its inverse. -/
noncomputable def div_kernel {d : ℕ} (k : Kernel d) (c : ℝ) : Kernel d :=
  Kernel.scale k c⁻¹

/-- The three-fold product combinator `product(k1, k2, k3)`. -/
def product3 {d : ℕ} (k1 k2 k3 : Kernel d) : Kernel d :=
  product_kernels (product_kernels k1 k2) k3

/-- The value of a kernel on one pair of vectors, under the kernel's current
(fixed) parameter snapshot: leaves apply their formula to the squared
distance, composites combine their children point-wise. -/
noncomputable def Kernel.point {d : ℕ} : Kernel d → Vec d → Vec d → ℝ
  | .gaussian g, x, y => gaussianFormula g.sigma (sqdistVec x y)
  | .rq k, x, y => rqFormula k.sigma k.alpha (sqdistVec x y)
  | .periodic k, x, y => periodicFormula k.sigma k.tau (sqdistVec x y)
  | .sum a b, x, y => a.point x y + b.point x y
  | .prod a b, x, y => a.point x y * b.point x y
  | .scale a c, x, y => c * a.point x y

/-- The kernel-value matrix of a kernel on a pair of batches under its
current parameter snapshot (no inference): entry `(i, j)` is the kernel value
on row `i` of `x` and row `j` of `y`. -/
noncomputable def Kernel.eval {d n m : ℕ} (k : Kernel d) (x : Batch n d)
    (y : Batch m d) : Matrix (Fin n) (Fin m) ℝ :=
  fun i j => k.point (x i) (y j)

/-- Modelled from the spec (§4.4): the stateful call of a composite kernel.
`infer_parameter` is forwarded to every child independently; each child runs
its own inference against the same input pair, and the rebuilt tree carries
the children's updated parameter states. Any child's error aborts the call. -/
noncomputable def Kernel.call {d n m : ℕ} :
    Kernel d → Batch n d → Batch m d → Bool →
      Except String (Matrix (Fin n) (Fin m) ℝ × Kernel d)
  | .gaussian g, x, y, infer =>
    match g.call x y infer with
    | .error e => .error e
    | .ok (M, g') => .ok (M, .gaussian g')
  | .rq k, x, y, infer =>
    match k.call x y infer with
    | .error e => .error e
    | .ok (M, k') => .ok (M, .rq k')
  | .periodic k, x, y, infer =>
    match k.call x y infer with
    | .error e => .error e
    | .ok (M, k') => .ok (M, .periodic k')
  | .sum a b, x, y, infer =>
    match a.call x y infer, b.call x y infer with
    | .ok (Ma, a'), .ok (Mb, b') => .ok (fun i j => Ma i j + Mb i j, .sum a' b')
    | .error e, _ => .error e
    | _, .error e => .error e
  | .prod a b, x, y, infer =>
    match a.call x y infer, b.call x y infer with
    | .ok (Ma, a'), .ok (Mb, b') => .ok (fun i j => Ma i j * Mb i j, .prod a' b')
    | .error e, _ => .error e
    | _, .error e => .error e
  | .scale a c, x, y, infer =>
    match a.call x y infer with
    | .error e => .error e
    | .ok (Ma, a') => .ok (fun i j => c * Ma i j, .scale a' c)

/-- Modelled from the spec (§4.5): the mixing weight of a deep kernel is
either a fixed numeric value or a trainable value produced from an underlying
unconstrained scalar. -/
inductive EpsSpec where
  | fixed : ℝ → EpsSpec
  | trainable : ℝ → EpsSpec

/-- The logistic squashing map `z ↦ 1 / (1 + exp (-z))`, with values strictly
inside `(0, 1)`. -/
noncomputable def sigmoid (z : ℝ) : ℝ := 1 / (1 + Real.exp (-z))

/-- Modelled from the spec (§4.5): a deep kernel owns an opaque projection
function, a kernel `kernel_a` over the projected space, a kernel `kernel_b`
over the raw space and the current mixing weight `eps`. -/
structure DeepKernel (d dp : ℕ) where
  proj : ∀ {n : ℕ}, Batch n d → Batch n dp
  kernel_a : Kernel dp
  kernel_b : Kernel d
  eps : ℝ

/-- Modelled from the spec (§4.5): the default `kernel_b`, a fresh
GaussianRBF with heuristic bandwidth inference enabled (no explicit sigma). -/
noncomputable def defaultKernelB (d : ℕ) : Kernel d :=
  Kernel.gaussian (GaussianRBF.make d none false none)

/-- Modelled from the spec (§4.5): deep kernel construction. A fixed `eps`
must lie in `[0, 1]`, otherwise construction fails; a trainable `eps` is the
logistic squashing of the underlying unconstrained parameter; a missing
`kernel_b` defaults to a fresh heuristic GaussianRBF over the raw space. -/
noncomputable def DeepKernel.make {d dp : ℕ} (proj : ∀ {n : ℕ}, Batch n d → Batch n dp)
    (kernel_a : Kernel dp) (kernel_b : Option (Kernel d)) (eps : EpsSpec) :
    Except String (DeepKernel d dp) :=
  match eps with
  | .fixed v =>
    if 0 ≤ v ∧ v ≤ 1 then
      .ok { proj := proj, kernel_a := kernel_a,
            kernel_b := kernel_b.getD (defaultKernelB d), eps := v }
    else .error "eps must lie in [0,1]"
  | .trainable raw =>
    .ok { proj := proj, kernel_a := kernel_a,
          kernel_b := kernel_b.getD (defaultKernelB d), eps := sigmoid raw }

/-- Modelled from the spec (§4.5): deep kernel evaluation,
`eps * kernel_a(proj x, proj y) + (1 - eps) * kernel_b(x, y)`, both children
evaluated on the same pair under their current parameter snapshots. -/
noncomputable def DeepKernel.eval {d dp n m : ℕ} (k : DeepKernel d dp)
    (x : Batch n d) (y : Batch m d) : Matrix (Fin n) (Fin m) ℝ :=
  fun i j =>
    k.eps * k.kernel_a.eval (k.proj x) (k.proj y) i j +
      (1 - k.eps) * k.kernel_b.eval x y i j

/-- Partition of a list into contiguous blocks of size `B` (the last block
may be smaller; a block size of zero behaves like one). -/
def toBlocks {α : Type} (B : ℕ) : List α → List (List α)
  | [] => []
  | x :: xs => (x :: xs.take (B - 1)) :: toBlocks B (xs.drop (B - 1))
termination_by l => l.length
decreasing_by simp [List.length_drop]; omega

/-- One output row of a kernel matrix: the kernel evaluated between a single
row of `X` and every row of `Y`, under the current parameter snapshot. -/
noncomputable def kernelRow {d : ℕ} (k : Kernel d) (ys : List (Vec d)) (x : Vec d) :
    List ℝ :=
  ys.map (fun y => k.point x y)

/-- The unblocked kernel-matrix evaluation on row lists: row `i` of the
result is the kernel between row `i` of `X` and all of `Y`. -/
noncomputable def compute_kernel_matrix {d : ℕ} (k : Kernel d) (xs ys : List (Vec d)) :
    List (List ℝ) :=
  xs.map (kernelRow k ys)

/-- Modelled from the spec (BatchedKernelMatrix, §4.6): partition `X`'s rows
into contiguous blocks of size at most `B`, evaluate the kernel between each
block and the full `Y`, and concatenate the per-block results along the row
axis in original order. -/
noncomputable def batch_compute_kernel_matrix {d : ℕ} (k : Kernel d)
    (xs ys : List (Vec d)) (B : ℕ) : List (List ℝ) :=
  ((toBlocks B xs).map (fun blk => compute_kernel_matrix k blk ys)).flatten

/-- The clamped expansion evaluates to zero on a pair of equal vectors. -/
theorem sqdistVec_self {d : ℕ} (v : Vec d) : sqdistVec v v = 0 := by
  unfold sqdistVec
  have h : ∑ t, v t * v t = ∑ t, v t ^ 2 :=
    Finset.sum_congr rfl fun t _ => by ring
  have h2 : (∑ t, v t ^ 2) + (∑ t, v t ^ 2) - 2 * ∑ t, v t ^ 2 = 0 := by ring
  rw [h, h2, max_self]

/-- The squared distance is symmetric in its two arguments. -/
theorem sqdistVec_comm {d : ℕ} (x y : Vec d) : sqdistVec x y = sqdistVec y x := by
  unfold sqdistVec
  have h : ∑ t, x t * y t = ∑ t, y t * x t :=
    Finset.sum_congr rfl fun t _ => mul_comm _ _
  rw [h]
  congr 1
  ring

/-- The clamped squared distance is non-negative. -/
theorem sqdistVec_nonneg {d : ℕ} (x y : Vec d) : 0 ≤ sqdistVec x y :=
  le_max_left _ _

/-- At distance zero the Gaussian formula averages to exactly one, for any
non-empty bandwidth list. -/
theorem gaussianFormula_zero (sigmas : List ℝ) (h : sigmas ≠ []) :
    gaussianFormula sigmas 0 = 1 := by
  unfold gaussianFormula
  have h1 : sigmas.map (fun σ => Real.exp (-((0 : ℚ) : ℝ) / (2 * σ ^ 2))) =
      sigmas.map (fun _ => (1 : ℝ)) :=
    List.map_congr_left fun σ _ => by norm_num
  have hn : (sigmas.length : ℝ) ≠ 0 := by
    simpa [List.length_eq_zero] using h
  rw [h1, List.map_const', List.sum_replicate, nsmul_eq_mul, mul_one, div_self hn]

/-- The Gaussian formula is strictly positive for any non-empty bandwidth
list and any distance. -/
theorem gaussianFormula_pos (sigmas : List ℝ) (h : sigmas ≠ []) (s : ℚ) :
    0 < gaussianFormula sigmas s := by
  unfold gaussianFormula
  refine div_pos (List.sum_pos _ ?_ ?_) ?_
  · intro z hz
    rw [List.mem_map] at hz
    obtain ⟨σ, _, rfl⟩ := hz
    exact Real.exp_pos _
  · simpa using h
  · exact_mod_cast List.length_pos.mpr h

/-- The RationalQuadratic formula is strictly positive for positive
parameters and a non-negative distance. -/
theorem rqFormula_pos (sigmas alphas : List ℝ) (h1 : sigmas ≠ [])
    (h2 : alphas.length = sigmas.length) (h3 : ∀ σ ∈ sigmas, 0 < σ)
    (h4 : ∀ α ∈ alphas, 0 < α) (s : ℚ) (hs : 0 ≤ s) :
    0 < rqFormula sigmas alphas s := by
  unfold rqFormula
  have hlen : (sigmas.zip alphas).length = sigmas.length := by
    rw [List.length_zip, h2, min_self]
  have hne : sigmas.zip alphas ≠ [] := by
    intro hnil
    apply h1
    rw [← List.length_eq_zero, ← hlen, hnil]
    rfl
  refine div_pos (List.sum_pos _ ?_ ?_) ?_
  · intro z hz
    rw [List.mem_map] at hz
    obtain ⟨p, hpmem, rfl⟩ := hz
    obtain ⟨hps, hpa⟩ := List.of_mem_zip hpmem
    have hσ := h3 _ hps
    have hα := h4 _ hpa
    apply Real.rpow_pos_of_pos
    have hq : (0 : ℝ) ≤ (s : ℝ) / (2 * p.2 * p.1 ^ 2) := by
      apply div_nonneg
      · exact_mod_cast hs
      · positivity
    linarith
  · simpa using hne
  · exact_mod_cast List.length_pos.mpr hne

/-- The Periodic formula is strictly positive for any non-empty parameter
lists of equal length. -/
theorem periodicFormula_pos (sigmas taus : List ℝ) (h1 : sigmas ≠ [])
    (h2 : taus.length = sigmas.length) (s : ℚ) :
    0 < periodicFormula sigmas taus s := by
  unfold periodicFormula
  have hlen : (sigmas.zip taus).length = sigmas.length := by
    rw [List.length_zip, h2, min_self]
  have hne : sigmas.zip taus ≠ [] := by
    intro hnil
    apply h1
    rw [← List.length_eq_zero, ← hlen, hnil]
    rfl
  refine div_pos (List.sum_pos _ ?_ ?_) ?_
  · intro z hz
    rw [List.mem_map] at hz
    obtain ⟨p, _, rfl⟩ := hz
    exact Real.exp_pos _
  · simpa using hne
  · exact_mod_cast List.length_pos.mpr hne

/-- A kernel-tree node is a base kernel with valid parameters. -/
def Kernel.isBaseValid {d : ℕ} : Kernel d → Prop
  | .gaussian g => g.valid
  | .rq k => k.valid
  | .periodic k => k.valid
  | .sum _ _ => False
  | .prod _ _ => False
  | .scale _ _ => False

/-- Every base kernel with valid parameters takes strictly positive values. -/
theorem Kernel.point_pos {d : ℕ} (k : Kernel d) (hv : k.isBaseValid)
    (x y : Vec d) : 0 < k.point x y := by
  cases k with
  | gaussian g => exact gaussianFormula_pos g.sigma hv.1 _
  | rq k =>
    exact rqFormula_pos k.sigma k.alpha hv.1 hv.2.1 hv.2.2.1 hv.2.2.2 _
      (sqdistVec_nonneg x y)
  | periodic k => exact periodicFormula_pos k.sigma k.tau hv.1 hv.2.1 _
  | sum a b => exact hv.elim
  | prod a b => exact hv.elim
  | scale a c => exact hv.elim

/-- Every kernel of the algebra is symmetric under swapping its two vector
arguments. -/
theorem Kernel.point_symm {d : ℕ} (k : Kernel d) (x y : Vec d) :
    k.point x y = k.point y x := by
  induction k with
  | gaussian g => simp [Kernel.point, sqdistVec_comm x y]
  | rq k => simp [Kernel.point, sqdistVec_comm x y]
  | periodic k => simp [Kernel.point, sqdistVec_comm x y]
  | sum a b iha ihb => simp [Kernel.point, iha, ihb]
  | prod a b iha ihb => simp [Kernel.point, iha, ihb]
  | scale a c ih => simp [Kernel.point, ih]

/-- Calling any kernel of the algebra without parameter inference always
succeeds, returns the snapshot evaluation and leaves the kernel unchanged. -/
theorem Kernel.call_eval {d n m : ℕ} (k : Kernel d) (x : Batch n d)
    (y : Batch m d) : k.call x y false = .ok (k.eval x y, k) := by
  induction k with
  | gaussian g => rfl
  | rq k => rfl
  | periodic k => rfl
  | sum a b iha ihb => rw [Kernel.call, iha, ihb]; rfl
  | prod a b iha ihb => rw [Kernel.call, iha, ihb]; rfl
  | scale a c ih => rw [Kernel.call, ih]; rfl

/-- Concatenating the contiguous blocks of a list restores the list. -/
theorem toBlocks_flatten {α : Type} (B : ℕ) :
    ∀ (l : List α), (toBlocks B l).flatten = l
  | [] => by simp [toBlocks]
  | x :: xs => by
    rw [toBlocks, List.flatten_cons, toBlocks_flatten B (xs.drop (B - 1))]
    simp [List.take_append_drop]
termination_by l => l.length
decreasing_by simp [List.length_drop]; omega

/-- The median of a non-empty list of positive rationals is positive. -/
theorem medianQ_pos (l : List ℚ) (h : l ≠ []) (hp : ∀ a ∈ l, 0 < a) :
    0 < medianQ l := by
  unfold medianQ
  have hlen : (l.insertionSort (· ≤ ·)).length = l.length :=
    List.length_insertionSort _ l
  have hmem : ∀ a ∈ l.insertionSort (· ≤ ·), 0 < a := fun a ha =>
    hp a ((List.perm_insertionSort _ l).mem_iff.mp ha)
  have hpos : 0 < (l.insertionSort (· ≤ ·)).length := by
    rw [hlen]
    exact List.length_pos.mpr h
  have h1 : ((l.insertionSort (· ≤ ·)).length - 1) / 2 <
      (l.insertionSort (· ≤ ·)).length := by omega
  have h2 : (l.insertionSort (· ≤ ·)).length / 2 <
      (l.insertionSort (· ≤ ·)).length := by omega
  have g1 := hmem _ (List.getElem_mem h1)
  have g2 := hmem _ (List.getElem_mem h2)
  show 0 < ((l.insertionSort (· ≤ ·)).getD
      (((l.insertionSort (· ≤ ·)).length - 1) / 2) 0 +
    (l.insertionSort (· ≤ ·)).getD ((l.insertionSort (· ≤ ·)).length / 2) 0) / 2
  rw [List.getD_eq_getElem _ 0 h1, List.getD_eq_getElem _ 0 h2]
  linarith

/-- Every nonzero entry of a squared pairwise distance matrix is positive. -/
theorem nonzeroEntries_pos {n m d : ℕ} (x : Batch n d) (y : Batch m d) :
    ∀ a ∈ nonzeroEntries (squared_pairwise_distance x y), 0 < a := by
  intro a ha
  unfold nonzeroEntries matrixEntries at ha
  rw [List.mem_filter] at ha
  obtain ⟨hmem, hne⟩ := ha
  rw [List.mem_flatMap] at hmem
  obtain ⟨i, _, hmem⟩ := hmem
  rw [List.mem_map] at hmem
  obtain ⟨j, _, rfl⟩ := hmem
  have hnn : (0 : ℚ) ≤ squared_pairwise_distance x y i j := le_max_left _ _
  have hne' : squared_pairwise_distance x y i j ≠ 0 := by simpa using hne
  exact lt_of_le_of_ne hnn (Ne.symm hne')

/-- A convex mixture of two positive reals with weight in `[0, 1]` is
positive. -/
theorem convex_mix_pos {e A B : ℝ} (h0 : 0 ≤ e) (h1 : e ≤ 1) (hA : 0 < A)
    (hB : 0 < B) : 0 < e * A + (1 - e) * B := by
  rcases eq_or_lt_of_le h1 with he | he
  · rw [he]
    simpa using hA
  · have hp : 0 < (1 - e) * B := mul_pos (by linarith) hB
    have hq : 0 ≤ e * A := mul_nonneg h0 hA.le
    linarith

/-- An inference call on a non-trainable GaussianRBF succeeds and stores the
exponentiated heuristic value as the new bandwidth. -/
theorem gaussian_call_infer {d n m : ℕ} (k : GaussianRBF d)
    (h : k.trainable = false) (x : Batch n d) (y : Batch m d) :
    k.call x y true =
      .ok (fun i j => gaussianFormula
            [Real.exp (k.init_sigma_fn x y (squared_pairwise_distance x y))]
            (squared_pairwise_distance x y i j),
          { k with
              sigma := [Real.exp (k.init_sigma_fn x y (squared_pairwise_distance x y))]
              init_required := false }) := by
  unfold GaussianRBF.call
  rw [h]
  rfl

/-- An inference call on a non-trainable RationalQuadratic succeeds and
stores the exponentiated heuristic value as the new bandwidth. -/
theorem rq_call_infer {d n m : ℕ} (k : RationalQuadratic d)
    (h : k.trainable = false) (x : Batch n d) (y : Batch m d) :
    k.call x y true =
      .ok (fun i j => rqFormula
            [Real.exp (k.init_sigma_fn x y (squared_pairwise_distance x y))]
            k.alpha (squared_pairwise_distance x y i j),
          { k with
              sigma := [Real.exp (k.init_sigma_fn x y (squared_pairwise_distance x y))]
              init_required := false }) := by
  unfold RationalQuadratic.call
  rw [h]
  rfl

/-- An inference call on a non-trainable Periodic kernel succeeds and stores
the exponentiated heuristic values for its non-fixed parameters. -/
theorem periodic_call_infer {d n m : ℕ} (k : Periodic d)
    (h : k.trainable = false) (x : Batch n d) (y : Batch m d) :
    k.call x y true =
      .ok (fun i j => periodicFormula
            [Real.exp (k.init_sigma_fn x y (squared_pairwise_distance x y))]
            (if k.tau_required
              then [Real.exp (k.init_tau_fn x y (squared_pairwise_distance x y))]
              else k.tau)
            (squared_pairwise_distance x y i j),
          { k with
              sigma := [Real.exp (k.init_sigma_fn x y (squared_pairwise_distance x y))]
              tau := if k.tau_required
                then [Real.exp (k.init_tau_fn x y (squared_pairwise_distance x y))]
                else k.tau
              sigma_required := false
              tau_required := false }) := by
  unfold Periodic.call
  rw [h]
  rfl

/-- C1: for every base kernel (GaussianRBF, RationalQuadratic, Periodic)
constructed with `trainable = true` and no explicit parameter value, calling
the kernel with `infer_parameter = true` returns the
"cannot both learn and re-infer a parameter" error: it never silently falls
back to inferring or defaulting the parameter. -/
theorem trainable_no_value_infer_is_error {d n m : ℕ} (x : Batch n d)
    (y : Batch m d) (fn : Option (Heuristic d)) :
    (GaussianRBF.make d none true fn).call x y true =
        .error "cannot both learn and re-infer a parameter" ∧
    (∀ alpha : Option (List ℝ),
      (RationalQuadratic.make d none alpha true fn).call x y true =
        .error "cannot both learn and re-infer a parameter") ∧
    (∀ tau : Option (List ℝ),
      (Periodic.make d none tau true fn).call x y true =
        .error "cannot both learn and re-infer a parameter") :=
  ⟨rfl, fun _ => rfl, fun _ => rfl⟩

/-- C2: for every non-trainable base kernel with a configured bandwidth
heuristic, every call with `infer_parameter = true` re-derives the scale
parameter from the current input pair before evaluating, stores it as the
kernel's current parameter state, and a second call on a different pair
leaves the parameter derived from that second pair. -/
theorem infer_rederives_parameter_per_pair {d n m n' m' : ℕ} :
    (∀ (k : GaussianRBF d), k.trainable = false →
      ∀ (x : Batch n d) (y : Batch m d) (x' : Batch n' d) (y' : Batch m' d),
      ∃ M k₁, k.call x y true = .ok (M, k₁) ∧
        k₁.sigma = [Real.exp (k.init_sigma_fn x y (squared_pairwise_distance x y))] ∧
        M = (fun i j => gaussianFormula k₁.sigma (squared_pairwise_distance x y i j)) ∧
        ∃ M' k₂, k₁.call x' y' true = .ok (M', k₂) ∧
          k₂.sigma = [Real.exp (k.init_sigma_fn x' y' (squared_pairwise_distance x' y'))] ∧
          M' = (fun i j => gaussianFormula k₂.sigma (squared_pairwise_distance x' y' i j))) ∧
    (∀ (k : RationalQuadratic d), k.trainable = false →
      ∀ (x : Batch n d) (y : Batch m d) (x' : Batch n' d) (y' : Batch m' d),
      ∃ M k₁, k.call x y true = .ok (M, k₁) ∧
        k₁.sigma = [Real.exp (k.init_sigma_fn x y (squared_pairwise_distance x y))] ∧
        M = (fun i j => rqFormula k₁.sigma k₁.alpha (squared_pairwise_distance x y i j)) ∧
        ∃ M' k₂, k₁.call x' y' true = .ok (M', k₂) ∧
          k₂.sigma = [Real.exp (k.init_sigma_fn x' y' (squared_pairwise_distance x' y'))] ∧
          M' = (fun i j => rqFormula k₂.sigma k₂.alpha (squared_pairwise_distance x' y' i j))) ∧
    (∀ (k : Periodic d), k.trainable = false →
      ∀ (x : Batch n d) (y : Batch m d) (x' : Batch n' d) (y' : Batch m' d),
      ∃ M k₁, k.call x y true = .ok (M, k₁) ∧
        k₁.sigma = [Real.exp (k.init_sigma_fn x y (squared_pairwise_distance x y))] ∧
        k₁.tau = (if k.tau_required
          then [Real.exp (k.init_tau_fn x y (squared_pairwise_distance x y))]
          else k.tau) ∧
        M = (fun i j => periodicFormula k₁.sigma k₁.tau (squared_pairwise_distance x y i j)) ∧
        ∃ M' k₂, k₁.call x' y' true = .ok (M', k₂) ∧
          k₂.sigma = [Real.exp (k.init_sigma_fn x' y' (squared_pairwise_distance x' y'))] ∧
          k₂.tau = k₁.tau ∧
          M' = (fun i j => periodicFormula k₂.sigma k₂.tau (squared_pairwise_distance x' y' i j))) := by
  refine ⟨?_, ?_, ?_⟩
  · intro k h x y x' y'
    have h1 := gaussian_call_infer k h x y
    have h2 := gaussian_call_infer
      { k with
          sigma := [Real.exp (k.init_sigma_fn x y (squared_pairwise_distance x y))]
          init_required := false } h x' y'
    exact ⟨_, _, h1, rfl, rfl, _, _, h2, rfl, rfl⟩
  · intro k h x y x' y'
    have h1 := rq_call_infer k h x y
    have h2 := rq_call_infer
      { k with
          sigma := [Real.exp (k.init_sigma_fn x y (squared_pairwise_distance x y))]
          init_required := false } h x' y'
    exact ⟨_, _, h1, rfl, rfl, _, _, h2, rfl, rfl⟩
  · intro k h x y x' y'
    have h1 := periodic_call_infer k h x y
    have h2 := periodic_call_infer
      { k with
          sigma := [Real.exp (k.init_sigma_fn x y (squared_pairwise_distance x y))]
          tau := if k.tau_required
            then [Real.exp (k.init_tau_fn x y (squared_pairwise_distance x y))]
            else k.tau
          sigma_required := false
          tau_required := false } h x' y'
    exact ⟨_, _, h1, rfl, rfl, rfl, _, _, h2, rfl, rfl, rfl⟩

/-- A concrete one-row batch of zeros. -/
def xB0 : Batch 1 1 := fun _ _ => 0

/-- A concrete one-row batch of ones. -/
def xB1 : Batch 1 1 := fun _ _ => 1

/-- Witness for C2: the re-derivation property instantiated at a concrete
non-trainable GaussianRBF and two concrete input pairs. -/
theorem infer_rederives_parameter_per_pair_witness :
    (GaussianRBF.make 1 none false none).trainable = false ∧
    (∃ M k₁, (GaussianRBF.make 1 none false none).call xB0 xB1 true = .ok (M, k₁) ∧
      k₁.sigma = [Real.exp ((GaussianRBF.make 1 none false none).init_sigma_fn xB0 xB1
        (squared_pairwise_distance xB0 xB1))] ∧
      M = (fun i j => gaussianFormula k₁.sigma (squared_pairwise_distance xB0 xB1 i j)) ∧
      ∃ M' k₂, k₁.call xB1 xB0 true = .ok (M', k₂) ∧
        k₂.sigma = [Real.exp ((GaussianRBF.make 1 none false none).init_sigma_fn xB1 xB0
          (squared_pairwise_distance xB1 xB0))] ∧
        M' = (fun i j => gaussianFormula k₂.sigma (squared_pairwise_distance xB1 xB0 i j))) :=
  ⟨rfl, (infer_rederives_parameter_per_pair).1 (GaussianRBF.make 1 none false none)
    rfl xB0 xB1 xB1 xB0⟩

/-- C4: for every base kernel configured with an `init_sigma_fn` and
`trainable = false`, after a call with `infer_parameter = true` the stored
sigma equals the exponential of the heuristic applied to
`(X, Y, squared_pairwise_distance X Y)`: the heuristic returns the log of
sigma and the kernel exponentiates it before use. -/
theorem stored_sigma_is_exp_of_heuristic {d n m : ℕ} :
    (∀ (k : GaussianRBF d), k.trainable = false → ∀ (x : Batch n d) (y : Batch m d),
      ∃ M k', k.call x y true = .ok (M, k') ∧
        k'.sigma = [Real.exp (k.init_sigma_fn x y (squared_pairwise_distance x y))]) ∧
    (∀ (k : RationalQuadratic d), k.trainable = false → ∀ (x : Batch n d) (y : Batch m d),
      ∃ M k', k.call x y true = .ok (M, k') ∧
        k'.sigma = [Real.exp (k.init_sigma_fn x y (squared_pairwise_distance x y))]) ∧
    (∀ (k : Periodic d), k.trainable = false → ∀ (x : Batch n d) (y : Batch m d),
      ∃ M k', k.call x y true = .ok (M, k') ∧
        k'.sigma = [Real.exp (k.init_sigma_fn x y (squared_pairwise_distance x y))]) := by
  refine ⟨?_, ?_, ?_⟩
  · intro k h x y
    exact ⟨_, _, gaussian_call_infer k h x y, rfl⟩
  · intro k h x y
    exact ⟨_, _, rq_call_infer k h x y, rfl⟩
  · intro k h x y
    exact ⟨_, _, periodic_call_infer k h x y, rfl⟩

/-- Witness for C4: the exponentiated-heuristic property instantiated at
concrete non-trainable kernels of all three variants on a concrete pair. -/
theorem stored_sigma_is_exp_of_heuristic_witness :
    ((GaussianRBF.make 1 none false none).trainable = false ∧
      ∃ M k', (GaussianRBF.make 1 none false none).call xB0 xB1 true = .ok (M, k') ∧
        k'.sigma = [Real.exp ((GaussianRBF.make 1 none false none).init_sigma_fn xB0 xB1
          (squared_pairwise_distance xB0 xB1))]) ∧
    ((RationalQuadratic.make 1 none none false none).trainable = false ∧
      ∃ M k', (RationalQuadratic.make 1 none none false none).call xB0 xB1 true = .ok (M, k') ∧
        k'.sigma = [Real.exp ((RationalQuadratic.make 1 none none false none).init_sigma_fn xB0 xB1
          (squared_pairwise_distance xB0 xB1))]) ∧
    ((Periodic.make 1 none none false none).trainable = false ∧
      ∃ M k', (Periodic.make 1 none none false none).call xB0 xB1 true = .ok (M, k') ∧
        k'.sigma = [Real.exp ((Periodic.make 1 none none false none).init_sigma_fn xB0 xB1
          (squared_pairwise_distance xB0 xB1))]) :=
  ⟨⟨rfl, (stored_sigma_is_exp_of_heuristic).1 _ rfl xB0 xB1⟩,
   ⟨rfl, (stored_sigma_is_exp_of_heuristic).2.1 _ rfl xB0 xB1⟩,
   ⟨rfl, (stored_sigma_is_exp_of_heuristic).2.2 _ rfl xB0 xB1⟩⟩

/-- C3 (amended): for GaussianRBF constructed with no explicit sigma and
`trainable = false`, calling `k(x, x, infer_parameter = true)` on any batch
`x` whose self-distance matrix has at least one nonzero entry (that is, `x`
has two distinct rows) sets sigma via the median heuristic
`sigma = sqrt(0.5 * median(nonzero entries of S))` and returns a matrix whose
diagonal entries all equal one, so its trace equals the number of rows. -/
theorem median_heuristic_unit_diagonal {d n : ℕ} (x : Batch n d)
    (hnz : nonzeroEntries (squared_pairwise_distance x x) ≠ []) :
    ∃ M k', (GaussianRBF.make d none false none).call x x true = .ok (M, k') ∧
      k'.sigma = [Real.sqrt
        ((medianQ (nonzeroEntries (squared_pairwise_distance x x)) : ℝ) / 2)] ∧
      (∀ i, M i i = 1) ∧ Matrix.trace M = n := by
  have hmed : 0 < medianQ (nonzeroEntries (squared_pairwise_distance x x)) :=
    medianQ_pos _ hnz (nonzeroEntries_pos x x)
  have hσpos : (0 : ℝ) < Real.sqrt
      ((medianQ (nonzeroEntries (squared_pairwise_distance x x)) : ℝ) / 2) := by
    apply Real.sqrt_pos.mpr
    have hc : (0 : ℝ) < (medianQ (nonzeroEntries (squared_pairwise_distance x x)) : ℝ) := by
      exact_mod_cast hmed
    linarith
  have hdiag : ∀ i, gaussianFormula
      [Real.exp ((GaussianRBF.make d none false none).init_sigma_fn x x
        (squared_pairwise_distance x x))]
      (squared_pairwise_distance x x i i) = 1 := by
    intro i
    have h0 : squared_pairwise_distance x x i i = 0 := sqdistVec_self (x i)
    rw [h0]
    exact gaussianFormula_zero _ (by simp)
  refine ⟨_, _, gaussian_call_infer _ rfl x x, ?_, hdiag, ?_⟩
  · show [Real.exp (log_sigma_median x x (squared_pairwise_distance x x))] = _
    rw [log_sigma_median, Real.exp_log hσpos]
  · show ∑ i, gaussianFormula _ (squared_pairwise_distance x x i i) = (n : ℝ)
    rw [Finset.sum_congr rfl fun i _ => hdiag i]
    simp

/-- A concrete non-empty single-row batch on which every pairwise distance is
zero. -/
def xConst : Batch 1 1 := fun _ _ => 0

/-- C3 fails as stated on the non-empty batch `xConst`: its self-distance
matrix has no nonzero entry, so the median-heuristic formula evaluates to
`sqrt(0.5 * 0) = 0`, while the inference call stores the bandwidth
`exp(log 0) = 1`; the stored sigma is not the value the claimed formula
gives. -/
theorem median_heuristic_counterexample :
    ∃ M k', (GaussianRBF.make 1 none false none).call xConst xConst true = .ok (M, k') ∧
      k'.sigma = [1] ∧
      Real.sqrt ((medianQ (nonzeroEntries (squared_pairwise_distance xConst xConst)) : ℝ) / 2) = 0 ∧
      (1 : ℝ) ≠ 0 := by
  have hzero : squared_pairwise_distance xConst xConst = fun _ _ => 0 := by
    funext i j
    show sqdistVec (xConst i) (xConst j) = 0
    unfold sqdistVec xConst
    norm_num
  have hnil : nonzeroEntries (squared_pairwise_distance xConst xConst) = [] := by
    rw [hzero]
    rfl
  have hmed : medianQ (nonzeroEntries (squared_pairwise_distance xConst xConst)) = 0 := by
    rw [hnil]
    norm_num [medianQ]
  refine ⟨_, _, gaussian_call_infer _ rfl xConst xConst, ?_, ?_, one_ne_zero⟩
  · show [Real.exp (log_sigma_median xConst xConst
      (squared_pairwise_distance xConst xConst))] = _
    rw [log_sigma_median, hmed]
    norm_num
  · rw [hmed]
    norm_num

/-- A concrete two-row batch with two distinct rows. -/
def xTwo : Batch 2 1 := fun i _ => (i.val : ℚ)

/-- The self-distance matrix of `xTwo` has a nonzero entry. -/
theorem xTwo_nonzero : nonzeroEntries (squared_pairwise_distance xTwo xTwo) ≠ [] := by
  have h01 : squared_pairwise_distance xTwo xTwo 0 1 = 1 := by
    show sqdistVec (xTwo 0) (xTwo 1) = 1
    unfold sqdistVec xTwo
    simp [Fin.sum_univ_one]
  have hmem : (1 : ℚ) ∈ nonzeroEntries (squared_pairwise_distance xTwo xTwo) := by
    unfold nonzeroEntries matrixEntries
    rw [List.mem_filter]
    refine ⟨?_, by norm_num⟩
    rw [List.mem_flatMap]
    refine ⟨0, List.mem_finRange 0, ?_⟩
    rw [List.mem_map]
    exact ⟨1, List.mem_finRange 1, h01⟩
  exact List.ne_nil_of_mem hmem

/-- Witness for C3 (amended): the unit-diagonal and median-sigma property
instantiated at the concrete two-row batch `xTwo`. -/
theorem median_heuristic_unit_diagonal_witness :
    nonzeroEntries (squared_pairwise_distance xTwo xTwo) ≠ [] ∧
    (∃ M k', (GaussianRBF.make 1 none false none).call xTwo xTwo true = .ok (M, k') ∧
      k'.sigma = [Real.sqrt
        ((medianQ (nonzeroEntries (squared_pairwise_distance xTwo xTwo)) : ℝ) / 2)] ∧
      (∀ i, M i i = 1) ∧ Matrix.trace M = 2) :=
  ⟨xTwo_nonzero, median_heuristic_unit_diagonal xTwo xTwo_nonzero⟩

/-- C5: for every base kernel with several configured bandwidths the
returned matrix is the arithmetic average of the per-bandwidth evaluations,
not their sum: for GaussianRBF over its bandwidth list, and for
RationalQuadratic and Periodic over their configured parameter pairs;
consequently a GaussianRBF evaluated on `(x, x)` still has unit diagonal and
trace equal to the number of rows, for any number of configured
bandwidths. -/
theorem multi_bandwidth_average_unit_diagonal {d n m : ℕ} (k : GaussianRBF d)
    (h : k.sigma ≠ []) (x : Batch n d) (y : Batch m d) :
    ((Kernel.gaussian k).eval x y = fun i j =>
      ((k.sigma.map (fun σ =>
          (Kernel.gaussian { k with sigma := [σ] }).eval x y i j)).sum) /
        k.sigma.length) ∧
    (∀ i, (Kernel.gaussian k).eval x x i i = 1) ∧
    Matrix.trace ((Kernel.gaussian k).eval x x) = n ∧
    (∀ (kr : RationalQuadratic d), (Kernel.rq kr).eval x y = fun i j =>
      (((kr.sigma.zip kr.alpha).map (fun p =>
          (Kernel.rq { kr with sigma := [p.1], alpha := [p.2] }).eval x y i j)).sum) /
        (kr.sigma.zip kr.alpha).length) ∧
    (∀ (kp : Periodic d), (Kernel.periodic kp).eval x y = fun i j =>
      (((kp.sigma.zip kp.tau).map (fun p =>
          (Kernel.periodic { kp with sigma := [p.1], tau := [p.2] }).eval x y i j)).sum) /
        (kp.sigma.zip kp.tau).length) := by
  have hdiag : ∀ i, (Kernel.gaussian k).eval x x i i = 1 := by
    intro i
    show gaussianFormula k.sigma (sqdistVec (x i) (x i)) = 1
    rw [sqdistVec_self]
    exact gaussianFormula_zero _ h
  refine ⟨?_, hdiag, ?_, ?_, ?_⟩
  · funext i j
    show gaussianFormula k.sigma (sqdistVec (x i) (y j)) = _
    unfold gaussianFormula
    have hmap : k.sigma.map
        (fun σ => Real.exp (-((sqdistVec (x i) (y j) : ℚ) : ℝ) / (2 * σ ^ 2))) =
        k.sigma.map
          (fun σ => (Kernel.gaussian { k with sigma := [σ] }).eval x y i j) :=
      List.map_congr_left fun σ _ => by
        show _ = gaussianFormula [σ] (sqdistVec (x i) (y j))
        unfold gaussianFormula
        simp
    rw [hmap]
  · show ∑ i, (Kernel.gaussian k).eval x x i i = (n : ℝ)
    rw [Finset.sum_congr rfl fun i _ => hdiag i]
    simp
  · intro kr
    funext i j
    show rqFormula kr.sigma kr.alpha (sqdistVec (x i) (y j)) = _
    unfold rqFormula
    have hmap : (kr.sigma.zip kr.alpha).map
        (fun p => (1 + ((sqdistVec (x i) (y j) : ℚ) : ℝ) / (2 * p.2 * p.1 ^ 2)) ^ (-p.2)) =
        (kr.sigma.zip kr.alpha).map
          (fun p => (Kernel.rq { kr with sigma := [p.1], alpha := [p.2] }).eval x y i j) :=
      List.map_congr_left fun p _ => by
        show _ = rqFormula [p.1] [p.2] (sqdistVec (x i) (y j))
        unfold rqFormula
        simp
    rw [hmap]
  · intro kp
    funext i j
    show periodicFormula kp.sigma kp.tau (sqdistVec (x i) (y j)) = _
    unfold periodicFormula
    have hmap : (kp.sigma.zip kp.tau).map
        (fun p => Real.exp (-2 * Real.sin (Real.pi *
          Real.sqrt ((sqdistVec (x i) (y j) : ℚ) : ℝ) / p.2) ^ 2 / p.1 ^ 2)) =
        (kp.sigma.zip kp.tau).map
          (fun p => (Kernel.periodic { kp with sigma := [p.1], tau := [p.2] }).eval x y i j) :=
      List.map_congr_left fun p _ => by
        show _ = periodicFormula [p.1] [p.2] (sqdistVec (x i) (y j))
        unfold periodicFormula
        simp
    rw [hmap]

/-- Witness for C5: the averaging and unit-diagonal property instantiated at
a concrete GaussianRBF with the two bandwidths 1 and 2 on a concrete pair,
together with the averaging property at a concrete RationalQuadratic and a
concrete Periodic kernel. -/
theorem multi_bandwidth_average_unit_diagonal_witness :
    (GaussianRBF.make 1 (some [1, 2]) false none).sigma ≠ [] ∧
    (((Kernel.gaussian (GaussianRBF.make 1 (some [1, 2]) false none)).eval xTwo xB0 = fun i j =>
      (((GaussianRBF.make 1 (some [1, 2]) false none).sigma.map (fun σ =>
          (Kernel.gaussian { GaussianRBF.make 1 (some [1, 2]) false none with
            sigma := [σ] }).eval xTwo xB0 i j)).sum) /
        (GaussianRBF.make 1 (some [1, 2]) false none).sigma.length) ∧
    (∀ i, (Kernel.gaussian (GaussianRBF.make 1 (some [1, 2]) false none)).eval xTwo xTwo i i = 1) ∧
    Matrix.trace ((Kernel.gaussian (GaussianRBF.make 1 (some [1, 2]) false none)).eval xTwo xTwo) = 2) ∧
    ((Kernel.rq (RationalQuadratic.make 1 (some [1, 2]) (some [1, 2]) false none)).eval xTwo xB0 = fun i j =>
      ((((RationalQuadratic.make 1 (some [1, 2]) (some [1, 2]) false none).sigma.zip
          (RationalQuadratic.make 1 (some [1, 2]) (some [1, 2]) false none).alpha).map (fun p =>
          (Kernel.rq { RationalQuadratic.make 1 (some [1, 2]) (some [1, 2]) false none with
              sigma := [p.1], alpha := [p.2] }).eval xTwo xB0 i j)).sum) /
        ((RationalQuadratic.make 1 (some [1, 2]) (some [1, 2]) false none).sigma.zip
          (RationalQuadratic.make 1 (some [1, 2]) (some [1, 2]) false none).alpha).length) ∧
    ((Kernel.periodic (Periodic.make 1 (some [1, 2]) (some [1, 2]) false none)).eval xTwo xB0 = fun i j =>
      ((((Periodic.make 1 (some [1, 2]) (some [1, 2]) false none).sigma.zip
          (Periodic.make 1 (some [1, 2]) (some [1, 2]) false none).tau).map (fun p =>
          (Kernel.periodic { Periodic.make 1 (some [1, 2]) (some [1, 2]) false none with
              sigma := [p.1], tau := [p.2] }).eval xTwo xB0 i j)).sum) /
        ((Periodic.make 1 (some [1, 2]) (some [1, 2]) false none).sigma.zip
          (Periodic.make 1 (some [1, 2]) (some [1, 2]) false none).tau).length) :=
  ⟨by simp [GaussianRBF.make],
   ⟨(multi_bandwidth_average_unit_diagonal _ (by simp [GaussianRBF.make]) xTwo xB0).1,
    (multi_bandwidth_average_unit_diagonal (GaussianRBF.make 1 (some [1, 2]) false none)
      (by simp [GaussianRBF.make]) xTwo xTwo).2.1,
    (multi_bandwidth_average_unit_diagonal (GaussianRBF.make 1 (some [1, 2]) false none)
      (by simp [GaussianRBF.make]) xTwo xTwo).2.2.1⟩,
   (multi_bandwidth_average_unit_diagonal (GaussianRBF.make 1 (some [1, 2]) false none)
      (by simp [GaussianRBF.make]) xTwo xB0).2.2.2.1 _,
   (multi_bandwidth_average_unit_diagonal (GaussianRBF.make 1 (some [1, 2]) false none)
      (by simp [GaussianRBF.make]) xTwo xB0).2.2.2.2 _⟩

/-- C6: for every DeepKernel whose `kernel_a` and `kernel_b` are (symmetric)
base kernels with valid parameters and whose mixing weight lies in `[0, 1]`
(as valid construction guarantees), the matrix `DeepKernel(X, Y)` transposed
equals `DeepKernel(Y, X)` exactly, and every diagonal entry of
`DeepKernel(X, X)` is strictly positive. -/
theorem deep_kernel_symmetric_positive_diagonal {d dp n m : ℕ}
    (k : DeepKernel d dp) (ha : k.kernel_a.isBaseValid)
    (hb : k.kernel_b.isBaseValid) (h0 : 0 ≤ k.eps) (h1 : k.eps ≤ 1)
    (x : Batch n d) (y : Batch m d) :
    (k.eval x y)ᵀ = k.eval y x ∧
    ∀ (z : Batch n d) (i : Fin n), 0 < k.eval z z i i := by
  constructor
  · funext i j
    show k.eval x y j i = k.eval y x i j
    unfold DeepKernel.eval Kernel.eval
    rw [Kernel.point_symm k.kernel_a (k.proj x j) (k.proj y i),
        Kernel.point_symm k.kernel_b (x j) (y i)]
  · intro z i
    exact convex_mix_pos h0 h1 (Kernel.point_pos _ ha _ _)
      (Kernel.point_pos _ hb _ _)

/-- A concrete deep kernel over one-dimensional raw and projected spaces:
identity projection, valid single-bandwidth Gaussian children, eps 1/2. -/
noncomputable def dkConc : DeepKernel 1 1 :=
  { proj := fun b => b
    kernel_a := Kernel.gaussian (GaussianRBF.make 1 (some [1]) false none)
    kernel_b := Kernel.gaussian (GaussianRBF.make 1 (some [2]) false none)
    eps := 1 / 2 }

/-- Witness for C6: symmetry and positive diagonal instantiated at the
concrete deep kernel `dkConc` and concrete batches. -/
theorem deep_kernel_symmetric_positive_diagonal_witness :
    dkConc.kernel_a.isBaseValid ∧ dkConc.kernel_b.isBaseValid ∧
    (0 : ℝ) ≤ dkConc.eps ∧ dkConc.eps ≤ 1 ∧
    ((dkConc.eval xTwo xB0)ᵀ = dkConc.eval xB0 xTwo ∧
      ∀ (z : Batch 2 1) (i : Fin 2), 0 < dkConc.eval z z i i) := by
  have ha : dkConc.kernel_a.isBaseValid := by
    constructor
    · simp [dkConc, GaussianRBF.make]
    · intro σ hσ
      simp [dkConc, GaussianRBF.make] at hσ
      rw [hσ]
      norm_num
  have hb : dkConc.kernel_b.isBaseValid := by
    constructor
    · simp [dkConc, GaussianRBF.make]
    · intro σ hσ
      simp [dkConc, GaussianRBF.make] at hσ
      rw [hσ]
      norm_num
  have h0 : (0 : ℝ) ≤ dkConc.eps := by norm_num [dkConc]
  have h1 : dkConc.eps ≤ 1 := by norm_num [dkConc]
  exact ⟨ha, hb, h0, h1,
    deep_kernel_symmetric_positive_diagonal dkConc ha hb h0 h1 xTwo xB0⟩

/-- C7: for kernels with concrete fixed (non-inferred) parameters the product
combinator satisfies `product(k1,k2,k3)(x,y) = k1(x,y)*k2(x,y)*k3(x,y)`
elementwise, and building a composite (sum, product, scalar division)
returns a new composite node holding the operand kernels unchanged: a
non-inferring call even returns the composite itself untouched. -/
theorem product_combinator_elementwise {d n m : ℕ} (k1 k2 k3 : Kernel d)
    (c : ℝ) (x : Batch n d) (y : Batch m d) :
    ((product3 k1 k2 k3).eval x y = fun i j =>
      k1.eval x y i j * k2.eval x y i j * k3.eval x y i j) ∧
    product3 k1 k2 k3 = Kernel.prod (Kernel.prod k1 k2) k3 ∧
    sum_kernels k1 k2 = Kernel.sum k1 k2 ∧
    div_kernel k1 c = Kernel.scale k1 c⁻¹ ∧
    (product3 k1 k2 k3).call x y false =
      .ok ((product3 k1 k2 k3).eval x y, product3 k1 k2 k3) :=
  ⟨rfl, rfl, rfl, rfl, Kernel.call_eval _ x y⟩

/-- C8: for every configured base kernel with valid parameters the evaluation
on batches `X : (N, D)` and `Y : (M, D)` is a real matrix of shape `(N, M)`
(carried by its type) whose entries are all strictly positive. -/
theorem base_kernel_entries_positive {d n m : ℕ} (x : Batch n d) (y : Batch m d) :
    (∀ (k : GaussianRBF d), k.valid →
      ∀ i j, 0 < (Kernel.gaussian k).eval x y i j) ∧
    (∀ (k : RationalQuadratic d), k.valid →
      ∀ i j, 0 < (Kernel.rq k).eval x y i j) ∧
    (∀ (k : Periodic d), k.valid →
      ∀ i j, 0 < (Kernel.periodic k).eval x y i j) := by
  refine ⟨?_, ?_, ?_⟩ <;> intro k hv i j
  · exact Kernel.point_pos (Kernel.gaussian k) hv _ _
  · exact Kernel.point_pos (Kernel.rq k) hv _ _
  · exact Kernel.point_pos (Kernel.periodic k) hv _ _

/-- Witness for C8: positivity instantiated at concrete valid kernels of all
three variants on a concrete pair of batches. -/
theorem base_kernel_entries_positive_witness :
    ((GaussianRBF.make 1 (some [1, 2]) false none).valid ∧
      0 < (Kernel.gaussian (GaussianRBF.make 1 (some [1, 2]) false none)).eval xTwo xB0 0 0) ∧
    ((RationalQuadratic.make 1 (some [1]) (some [1]) false none).valid ∧
      0 < (Kernel.rq (RationalQuadratic.make 1 (some [1]) (some [1]) false none)).eval xTwo xB0 0 0) ∧
    ((Periodic.make 1 (some [1]) (some [1]) false none).valid ∧
      0 < (Kernel.periodic (Periodic.make 1 (some [1]) (some [1]) false none)).eval xTwo xB0 0 0) := by
  have hg : (GaussianRBF.make 1 (some [1, 2]) false none).valid := by
    constructor
    · simp [GaussianRBF.make]
    · intro σ hσ
      simp [GaussianRBF.make] at hσ
      rcases hσ with h | h <;> rw [h] <;> norm_num
  have hr : (RationalQuadratic.make 1 (some [1]) (some [1]) false none).valid := by
    refine ⟨by simp [RationalQuadratic.make], by simp [RationalQuadratic.make], ?_, ?_⟩
    · intro σ hσ
      simp [RationalQuadratic.make] at hσ
      rw [hσ]
      norm_num
    · intro α hα
      simp [RationalQuadratic.make] at hα
      rw [hα]
      norm_num
  have hp : (Periodic.make 1 (some [1]) (some [1]) false none).valid := by
    refine ⟨by simp [Periodic.make], by simp [Periodic.make], ?_, ?_⟩
    · intro σ hσ
      simp [Periodic.make] at hσ
      rw [hσ]
      norm_num
    · intro τ hτ
      simp [Periodic.make] at hτ
      rw [hτ]
      norm_num
  exact ⟨⟨hg, (base_kernel_entries_positive xTwo xB0).1 _ hg 0 0⟩,
    ⟨hr, (base_kernel_entries_positive xTwo xB0).2.1 _ hr 0 0⟩,
    ⟨hp, (base_kernel_entries_positive xTwo xB0).2.2 _ hp 0 0⟩⟩

/-- C9: for every kernel with a fixed parameter snapshot, every pair of row
lists and every row block size `B ≥ 1` (smaller, equal or larger than the
number of rows), the batched kernel-matrix assembly produces exactly the
matrix of the single unblocked evaluation, with output row `i` corresponding
exactly to row `i` of `X`. -/
theorem batched_matrix_equals_unblocked {d : ℕ} (k : Kernel d)
    (xs ys : List (Vec d)) (B : ℕ) (_hB : 1 ≤ B) :
    batch_compute_kernel_matrix k xs ys B = compute_kernel_matrix k xs ys ∧
    ∀ i : ℕ, (batch_compute_kernel_matrix k xs ys B)[i]? =
      (xs[i]?).map (kernelRow k ys) := by
  have hmain : batch_compute_kernel_matrix k xs ys B = compute_kernel_matrix k xs ys := by
    unfold batch_compute_kernel_matrix compute_kernel_matrix
    rw [← List.map_flatten, toBlocks_flatten]
  refine ⟨hmain, fun i => ?_⟩
  rw [hmain]
  unfold compute_kernel_matrix
  exact List.getElem?_map _ xs i

/-- A concrete two-element row list over dimension one. -/
def rowsX : List (Vec 1) := [fun _ => 0, fun _ => 1]

/-- A concrete three-element row list over dimension one. -/
def rowsY : List (Vec 1) := [fun _ => 0, fun _ => 1, fun _ => 2]

/-- Witness for C9: the batched/unblocked agreement instantiated at a
concrete Gaussian kernel, concrete row lists and block size one. -/
theorem batched_matrix_equals_unblocked_witness :
    1 ≤ 1 ∧
    (batch_compute_kernel_matrix (Kernel.gaussian (GaussianRBF.make 1 (some [1]) false none))
        rowsX rowsY 1 =
      compute_kernel_matrix (Kernel.gaussian (GaussianRBF.make 1 (some [1]) false none))
        rowsX rowsY ∧
    ∀ i : ℕ, (batch_compute_kernel_matrix
        (Kernel.gaussian (GaussianRBF.make 1 (some [1]) false none)) rowsX rowsY 1)[i]? =
      (rowsX[i]?).map (kernelRow (Kernel.gaussian (GaussianRBF.make 1 (some [1]) false none)) rowsY)) :=
  ⟨le_refl 1, batched_matrix_equals_unblocked _ rowsX rowsY 1 (le_refl 1)⟩

/-- C10: a GaussianRBF constructed with `trainable = true` and no explicit
bandwidth is immediately evaluable without inference: standalone, a call with
`infer_parameter = false` raises no error and returns the snapshot matrix,
the diagonal of the self-evaluation is strictly positive, and used as
`kernel_a` and `kernel_b` of a DeepKernel (with any projection and any mixing
weight in `[0, 1]`) the self-evaluation diagonal stays strictly positive:
trainable parameters receive a usable default initial value at
construction. -/
theorem trainable_default_immediately_evaluable {d dp n m : ℕ}
    (x : Batch n d) (y : Batch m d) :
    ((Kernel.gaussian (GaussianRBF.make d none true none)).call x y false =
      .ok ((Kernel.gaussian (GaussianRBF.make d none true none)).eval x y,
           Kernel.gaussian (GaussianRBF.make d none true none))) ∧
    (∀ i, 0 < (Kernel.gaussian (GaussianRBF.make d none true none)).eval x x i i) ∧
    (∀ (proj : ∀ {q : ℕ}, Batch q d → Batch q dp) (eps : ℝ),
      0 ≤ eps → eps ≤ 1 → ∀ i,
      0 < (DeepKernel.mk proj
              (Kernel.gaussian (GaussianRBF.make dp none true none))
              (Kernel.gaussian (GaussianRBF.make d none true none)) eps).eval x x i i) := by
  have hvg : ∀ (d' : ℕ), (GaussianRBF.make d' none true none).valid := by
    intro d'
    constructor
    · simp [GaussianRBF.make]
    · intro σ hσ
      simp [GaussianRBF.make] at hσ
      rw [hσ]
      norm_num
  refine ⟨Kernel.call_eval _ x y, ?_, ?_⟩
  · intro i
    exact Kernel.point_pos (Kernel.gaussian (GaussianRBF.make d none true none)) (hvg d) _ _
  · intro proj eps h0 h1 i
    exact convex_mix_pos h0 h1
      (Kernel.point_pos (Kernel.gaussian (GaussianRBF.make dp none true none)) (hvg dp) _ _)
      (Kernel.point_pos (Kernel.gaussian (GaussianRBF.make d none true none)) (hvg d) _ _)

/-- Witness for C10: the trainable-default property instantiated at concrete
batches, the identity projection and mixing weight 1/2. -/
theorem trainable_default_immediately_evaluable_witness :
    (0 : ℝ) ≤ 1 / 2 ∧ (1 : ℝ) / 2 ≤ 1 ∧
    ((Kernel.gaussian (GaussianRBF.make 1 none true none)).call xTwo xB0 false =
      .ok ((Kernel.gaussian (GaussianRBF.make 1 none true none)).eval xTwo xB0,
           Kernel.gaussian (GaussianRBF.make 1 none true none))) ∧
    (0 < (Kernel.gaussian (GaussianRBF.make 1 none true none)).eval xTwo xTwo 0 0) ∧
    0 < (DeepKernel.mk (fun b => b)
            (Kernel.gaussian (GaussianRBF.make 1 none true none))
            (Kernel.gaussian (GaussianRBF.make 1 none true none)) (1 / 2)).eval xTwo xTwo 0 0 :=
  ⟨by norm_num, by norm_num,
   (@trainable_default_immediately_evaluable 1 1 2 1 xTwo xB0).1,
   (@trainable_default_immediately_evaluable 1 1 2 1 xTwo xB0).2.1 0,
   (@trainable_default_immediately_evaluable 1 1 2 1 xTwo xB0).2.2 (fun b => b) (1 / 2)
     (by norm_num) (by norm_num) 0⟩
